import Mathlib

/-!
Verification of the segmented Sieve of Eratosthenes n-th prime finder in
`src/javascript/Sieve/sieve.ts`.

The embedding below mirrors the TypeScript class `Sieve` method by method:

* `calculateUpperLimit` — the prime-number-theorem bound estimator; the
  source computes `Math.ceil(n * (Math.log(n) + Math.log(Math.log(n))))`
  with IEEE doubles, modelled here over the reals with `Real.log`.
* `generatePrimesSieve` — the segmented sieve; its two loops are modelled
  by structurally recursive functions `sieveLoop` and `markMultiples`
  taking an explicit iteration budget that provably dominates the number
  of iterations of the corresponding JavaScript loop (the budget arguments
  `offset + limit` resp. `limit` suffice because the outer loop index is
  bounded by `offset + limit` and the inner one by `limit`).
* `findTargetPrimeInSegment` — the segment scanner.
* `findNthPrime` — the orchestrator loop, again with an iteration budget
  (`upperLimit + 1` dominates the iteration count since every iteration
  advances `offset` by at least one).
* `NthPrime` — the public entry point; the argument is an `Int` so that
  the negative-input check is meaningful, and the two `throw` sites are
  modelled by `Except.error` with the two error kinds.

JavaScript array quirks that the source relies on are modelled faithfully:
writing `primes[0] = primes[1] = false` on an array shorter than 2 extends
the array (`jsSetFalse`), and out-of-range reads are falsy (`List.getD`
with default `false`).
-/

namespace SieveTS

/-- The two failure conditions of `NthPrime`: the `n must be non-negative`
throw and the `nth prime not found within calculated upper limit` throw. -/
inductive SieveError where
  | invalidArgument : SieveError
  | boundExceeded : SieveError
deriving DecidableEq, Repr

/-- JavaScript assignment `a[i] = false`: in range it updates, past the end it
extends the array; the extension entries behave as falsy everywhere this
program reads them, so they are modelled as `false`. -/
def jsSetFalse (l : List Bool) (i : Nat) : List Bool :=
  if i < l.length then l.set i false
  else l ++ List.replicate (i + 1 - l.length) false

/-- The inner marking loop of `generatePrimesSieve`:
`for (let j = start; j < limit; j += i) primes[j] = false;`.
The first argument is an iteration budget; every call in this file passes
`limit`, which dominates the number of iterations whenever `step ≥ 1`. -/
def markMultiples : Nat → List Bool → Nat → Nat → Nat → List Bool
  | 0, primes, _, _, _ => primes
  | fuel + 1, primes, j, step, limit =>
    if j < limit then markMultiples fuel (primes.set j false) (j + step) step limit
    else primes

/-- The outer divisor loop of `generatePrimesSieve`:
`for (let i = 2; i * i < upperLimit; i++)` with the composite-divisor skip
`if (i >= offset && !primes[i - offset]) continue;` and the marking start
`Math.max(i * i, Math.ceil(offset / i) * i) - offset`.  The first argument
is an iteration budget; `offset + limit` dominates the iteration count. -/
def sieveLoop : Nat → List Bool → Nat → Nat → Nat → List Bool
  | 0, primes, _, _, _ => primes
  | fuel + 1, primes, i, offset, limit =>
    if i * i < offset + limit then
      sieveLoop fuel
        (if offset ≤ i ∧ primes.getD (i - offset) false = false then primes
         else markMultiples limit primes (max (i * i) ((offset + i - 1) / i * i) - offset) i limit)
        (i + 1) offset limit
    else primes

/-- Model of `generatePrimesSieve(offset, limit)`: a boolean array of length `limit`
(all `true`), with indices 0 and 1 forced to `false` when `offset === 0`
(in source order `primes[0] = primes[1] = false`, i.e. index 1 first), then
sieved by `sieveLoop`. -/
def generatePrimesSieve (offset limit : Nat) : List Bool :=
  sieveLoop (offset + limit)
    (if offset = 0 then jsSetFalse (jsSetFalse (List.replicate limit true) 1) 0
     else List.replicate limit true)
    2 offset limit

/-- The scan of `findTargetPrimeInSegment`, carrying the current index `i`
and the running count of `true` entries seen so far. -/
def findTargetAux : List Bool → Nat → Nat → Nat → Nat → Option Nat
  | [], _, _, _, _ => none
  | b :: rest, targetCount, offset, i, count =>
    if b then
      if count = targetCount then some (i + offset)
      else findTargetAux rest targetCount offset (i + 1) (count + 1)
    else findTargetAux rest targetCount offset (i + 1) count

/-- Model of `findTargetPrimeInSegment(primes, targetCount, offset)`: returns
`i + offset` for the entry at which the running count of `true` values
equals `targetCount`, or `null` (here `none`) if the scan completes. -/
def findTargetPrimeInSegment (primes : List Bool) (targetCount offset : Nat) : Option Nat :=
  findTargetAux primes targetCount offset 0 0

/-- The constant `Sieve.MAX_ARRAY_SIZE`, the chunking constant. -/
def MAX_ARRAY_SIZE : Nat := 1000000

/-- The segment loop of `findNthPrime`, parametrised by the chunking
constant `size` so that chunk-size independence can be stated.  The second
argument is an iteration budget; `upperLimit + 1` dominates the iteration
count whenever `size ≥ 1`, since each iteration advances `offset` by
`min (upperLimit - offset) size ≥ 1`.  Both the budget-exhaustion case and
the loop-exit case produce the `boundExceeded` throw of the source. -/
def findNthPrimeLoop (size : Nat) : Nat → Nat → Nat → Nat → Nat → Except SieveError Nat
  | 0, _, _, _, _ => Except.error SieveError.boundExceeded
  | fuel + 1, n, upperLimit, primeCount, offset =>
    if offset < upperLimit then
      match findTargetPrimeInSegment
          (generatePrimesSieve offset (min (upperLimit - offset) size))
          (n - primeCount) offset with
      | some result => Except.ok result
      | none =>
          findNthPrimeLoop size fuel n upperLimit
            (primeCount +
              ((generatePrimesSieve offset (min (upperLimit - offset) size)).filter id).length)
            (offset + min (upperLimit - offset) size)
    else Except.error SieveError.boundExceeded

/-- Model of `findNthPrime` with the chunking constant as a parameter. -/
def findNthPrimeWith (size n upperLimit : Nat) : Except SieveError Nat :=
  findNthPrimeLoop size (upperLimit + 1) n upperLimit 0 0

/-- Model of `findNthPrime(n, upperLimit)` of the source, with the production
chunking constant. -/
def findNthPrime (n upperLimit : Nat) : Except SieveError Nat :=
  findNthPrimeWith MAX_ARRAY_SIZE n upperLimit

/-- Model of `calculateUpperLimit(n)`: the constant 11 for `n < 6`, otherwise
`ceil(n * (ln n + ln (ln n)))`.  The source evaluates the logarithms with
IEEE doubles (`Math.log`); the model uses the real logarithm, exactly as
the specification states the formula. -/
noncomputable def calculateUpperLimit (n : Nat) : Nat :=
  if n < 6 then 11
  else ⌈(n : ℝ) * (Real.log n + Real.log (Real.log n))⌉₊

/-- Model of `NthPrime(n)` with the chunking constant as a parameter. -/
noncomputable def NthPrimeWith (size : Nat) (n : Int) : Except SieveError Int :=
  if n < 0 then Except.error SieveError.invalidArgument
  else if n = 0 then Except.ok 2
  else (findNthPrimeWith size n.toNat (calculateUpperLimit (n.toNat + 1))).map Int.ofNat

/-- Model of `NthPrime(n)`, the public entry point of the source. -/
noncomputable def NthPrime (n : Int) : Except SieveError Int :=
  NthPrimeWith MAX_ARRAY_SIZE n

end SieveTS

namespace SieveTS

/-! ### Reads and writes -/

lemma getD_set_self_false (l : List Bool) (j : Nat) :
    (l.set j false).getD j false = false := by
  by_cases h : j < l.length
  · simp [List.getD_eq_getElem?_getD, List.getElem?_set_self h]
  · rw [List.set_eq_of_length_le (Nat.le_of_not_lt h)]
    simp [List.getD_eq_getElem?_getD, List.getElem?_eq_none (Nat.le_of_not_lt h)]

lemma getD_set_ne (l : List Bool) (a : Bool) (j k : Nat) (h : j ≠ k) :
    (l.set j a).getD k false = l.getD k false := by
  simp [List.getD_eq_getElem?_getD, List.getElem?_set_ne h]

lemma length_jsSetFalse (l : List Bool) (i : Nat) :
    (jsSetFalse l i).length = max l.length (i + 1) := by
  unfold jsSetFalse
  by_cases h : i < l.length <;> simp [h] <;> omega

lemma getD_jsSetFalse (l : List Bool) (i k : Nat) :
    (jsSetFalse l i).getD k false = if k = i then false else l.getD k false := by
  unfold jsSetFalse
  by_cases h : i < l.length
  · rw [if_pos h]
    by_cases hk : k = i
    · rw [if_pos hk, hk, getD_set_self_false]
    · rw [if_neg hk, getD_set_ne _ _ _ _ (fun hh => hk hh.symm)]
  · rw [if_neg h]
    by_cases hk : k < l.length
    · have : k ≠ i := by omega
      rw [if_neg this]
      simp [List.getD_eq_getElem?_getD, List.getElem?_append_left hk]
    · have hfalse : (l ++ List.replicate (i + 1 - l.length) false).getD k false = false := by
        rw [List.getD_eq_getElem?_getD, List.getElem?_append_right (by omega)]
        rw [List.getElem?_replicate]
        by_cases hr : k - l.length < i + 1 - l.length <;> simp [hr]
      rw [hfalse]
      by_cases hk2 : k = i
      · rw [if_pos hk2]
      · rw [if_neg hk2, List.getD_eq_getElem?_getD, List.getElem?_eq_none (by omega)]
        rfl

/-! ### The inner marking loop -/

lemma length_markMultiples :
    ∀ (fuel : Nat) (l : List Bool) (j step limit : Nat),
      (markMultiples fuel l j step limit).length = l.length := by
  intro fuel
  induction fuel with
  | zero => intro l j step limit; rfl
  | succ fuel ih =>
    intro l j step limit
    rw [markMultiples]
    by_cases h : j < limit
    · rw [if_pos h, ih]; simp
    · rw [if_neg h]

lemma getD_markMultiples :
    ∀ (fuel : Nat) (l : List Bool) (j step limit k : Nat),
      1 ≤ step → limit ≤ j + fuel * step →
      (markMultiples fuel l j step limit).getD k false =
        if j ≤ k ∧ k < limit ∧ step ∣ (k - j) then false else l.getD k false := by
  intro fuel
  induction fuel with
  | zero =>
    intro l j step limit k _ hfuel
    rw [markMultiples, if_neg (by rintro ⟨h1, h2, -⟩; omega)]
  | succ fuel ih =>
    intro l j step limit k hstep hfuel
    rw [markMultiples]
    by_cases hj : j < limit
    · rw [if_pos hj, ih _ _ _ _ _ hstep (by rw [Nat.succ_mul] at hfuel; omega)]
      by_cases hk : k = j
      · subst hk
        rw [if_neg (by rintro ⟨h1, -, -⟩; omega), getD_set_self_false,
          if_pos ⟨Nat.le_refl k, hj, by simp⟩]
      · rw [getD_set_ne _ _ _ _ (fun hh => hk hh.symm)]
        have hiff : (j + step ≤ k ∧ k < limit ∧ step ∣ k - (j + step)) ↔
            (j ≤ k ∧ k < limit ∧ step ∣ k - j) := by
          constructor
          · rintro ⟨h1, h2, h3⟩
            refine ⟨by omega, h2, ?_⟩
            have h4 : step ∣ (k - (j + step)) + step := Nat.dvd_add h3 (dvd_refl step)
            rwa [show (k - (j + step)) + step = k - j by omega] at h4
          · rintro ⟨h1, h2, h3⟩
            have hd : 0 < k - j := by omega
            have h4 : step ≤ k - j := Nat.le_of_dvd hd h3
            refine ⟨by omega, h2, ?_⟩
            have h5 : step ∣ (k - j) - step := Nat.dvd_sub' h3 (dvd_refl step)
            rwa [show (k - j) - step = k - (j + step) by omega] at h5
        simp only [hiff]
    · rw [if_neg hj, if_neg (by rintro ⟨h1, h2, -⟩; omega)]

lemma markMultiples_false_mono :
    ∀ (fuel : Nat) (l : List Bool) (j step limit k : Nat),
      l.getD k false = false →
      (markMultiples fuel l j step limit).getD k false = false := by
  intro fuel
  induction fuel with
  | zero => intro l j step limit k h; exact h
  | succ fuel ih =>
    intro l j step limit k h
    rw [markMultiples]
    by_cases hj : j < limit
    · rw [if_pos hj]
      refine ih _ _ _ _ _ ?_
      by_cases hk : k = j
      · rw [hk, getD_set_self_false]
      · rw [getD_set_ne _ _ _ _ (fun hh => hk hh.symm)]; exact h
    · rw [if_neg hj]; exact h

end SieveTS

namespace SieveTS

/-! ### Arithmetic facts about the marking start `max(i*i, ceil(offset/i)*i)` -/

lemma ceilMul_ge (offset i : Nat) (hi : 1 ≤ i) : offset ≤ (offset + i - 1) / i * i := by
  have h := Nat.div_add_mod (offset + i - 1) i
  have h2 := Nat.mod_lt (offset + i - 1) (show 0 < i by omega)
  have h3 : (offset + i - 1) / i * i = i * ((offset + i - 1) / i) := Nat.mul_comm _ _
  omega

lemma ceilMul_le (offset i m : Nat) (hi : 1 ≤ i) (hm : offset ≤ m) (hd : i ∣ m) :
    (offset + i - 1) / i * i ≤ m := by
  obtain ⟨t, ht⟩ := hd
  have hq : (offset + i - 1) / i * i ≤ offset + i - 1 := Nat.div_mul_le_self _ _
  have h5 : (offset + i - 1) / i * i < (t + 1) * i := by
    have he : (t + 1) * i = i * t + i := by ring
    omega
  have h6 : (offset + i - 1) / i ≤ t :=
    Nat.lt_succ_iff.mp (Nat.lt_of_mul_lt_mul_right h5)
  have h7 := Nat.mul_le_mul_right i h6
  have h8 : t * i = i * t := Nat.mul_comm _ _
  omega

lemma markStart_dvd (offset i : Nat) :
    i ∣ max (i * i) ((offset + i - 1) / i * i) := by
  rcases max_choice (i * i) ((offset + i - 1) / i * i) with h | h <;> rw [h]
  · exact dvd_mul_right i i
  · exact dvd_mul_left i _

/-- The condition under which the inner loop for divisor `i` marks local
index `k`: the absolute value `offset + k` is a multiple of `i` at or above
`i * i` (the start point also guarantees it is at or above `offset`). -/
lemma marked_cond (offset limit i k : Nat) (hi : 1 ≤ i) :
    (max (i * i) ((offset + i - 1) / i * i) - offset ≤ k ∧ k < limit ∧
        i ∣ (k - (max (i * i) ((offset + i - 1) / i * i) - offset))) ↔
      (k < limit ∧ i ∣ (offset + k) ∧ i * i ≤ offset + k) := by
  have hge : offset ≤ max (i * i) ((offset + i - 1) / i * i) :=
    le_trans (ceilMul_ge offset i hi) (le_max_right _ _)
  have hdvd := markStart_dvd offset i
  set s := max (i * i) ((offset + i - 1) / i * i) with hs
  constructor
  · rintro ⟨h1, h2, h3⟩
    refine ⟨h2, ?_, ?_⟩
    · have h4 : i ∣ (k - (s - offset)) + s := Nat.dvd_add h3 hdvd
      rwa [show (k - (s - offset)) + s = offset + k by omega] at h4
    · calc i * i ≤ s := le_max_left _ _
        _ ≤ offset + k := by omega
  · rintro ⟨h1, h2, h3⟩
    have hle : s ≤ offset + k := by
      apply max_le h3
      exact ceilMul_le offset i (offset + k) hi (by omega) h2
    refine ⟨by omega, h1, ?_⟩
    have h4 : i ∣ (offset + k) - s := Nat.dvd_sub' h2 hdvd
    rwa [show (offset + k) - s = k - (s - offset) by omega] at h4

/-! ### The outer divisor loop -/

lemma length_sieveLoop :
    ∀ (fuel : Nat) (l : List Bool) (i offset limit : Nat),
      (sieveLoop fuel l i offset limit).length = l.length := by
  intro fuel
  induction fuel with
  | zero => intro l i offset limit; rfl
  | succ fuel ih =>
    intro l i offset limit
    rw [sieveLoop]
    by_cases h : i * i < offset + limit
    · rw [if_pos h, ih]
      by_cases hskip : offset ≤ i ∧ l.getD (i - offset) false = false
      · rw [if_pos hskip]
      · rw [if_neg hskip, length_markMultiples]
    · rw [if_neg h]

lemma sieveLoop_false_mono :
    ∀ (fuel : Nat) (l : List Bool) (i offset limit k : Nat),
      l.getD k false = false →
      (sieveLoop fuel l i offset limit).getD k false = false := by
  intro fuel
  induction fuel with
  | zero => intro l i offset limit k h; exact h
  | succ fuel ih =>
    intro l i offset limit k h
    rw [sieveLoop]
    by_cases hg : i * i < offset + limit
    · rw [if_pos hg]
      apply ih
      by_cases hskip : offset ≤ i ∧ l.getD (i - offset) false = false
      · rw [if_pos hskip]; exact h
      · rw [if_neg hskip]; exact markMultiples_false_mono _ _ _ _ _ _ h
    · rw [if_neg hg]; exact h

/-- The invariant that every prime inside the segment is (still) marked
`true`: marking only ever writes `false` at multiples `m` of some `i ≥ 2`
with `i * i ≤ m`, which are composite. -/
def PrimesTrue (offset : Nat) (l : List Bool) : Prop :=
  ∀ k, k < l.length → (offset + k).Prime → l.getD k false = true

lemma primesTrue_markMultiples (offset limit i : Nat) (hi : 2 ≤ i) (l : List Bool)
    (h : PrimesTrue offset l) :
    PrimesTrue offset
      (markMultiples limit l (max (i * i) ((offset + i - 1) / i * i) - offset) i limit) := by
  intro k hk hp
  rw [length_markMultiples] at hk
  rw [getD_markMultiples _ _ _ _ _ _ (by omega)
    (le_trans (Nat.le_mul_of_pos_right limit (by omega)) (Nat.le_add_left _ _))]
  rw [if_neg ?_]
  · exact h k hk hp
  · intro hc
    rw [marked_cond offset limit i k (by omega)] at hc
    obtain ⟨-, hdvd, hsq⟩ := hc
    rcases (Nat.Prime.eq_one_or_self_of_dvd hp i hdvd) with h1 | h1
    · omega
    · have := hp.two_le
      nlinarith

lemma primesTrue_sieveLoop :
    ∀ (fuel : Nat) (l : List Bool) (i offset limit : Nat), 2 ≤ i →
      PrimesTrue offset l → PrimesTrue offset (sieveLoop fuel l i offset limit) := by
  intro fuel
  induction fuel with
  | zero => intro l i offset limit hi h; exact h
  | succ fuel ih =>
    intro l i offset limit hi h
    rw [sieveLoop]
    by_cases hg : i * i < offset + limit
    · rw [if_pos hg]
      apply ih _ _ _ _ (by omega)
      by_cases hskip : offset ≤ i ∧ l.getD (i - offset) false = false
      · rw [if_pos hskip]; exact h
      · rw [if_neg hskip]; exact primesTrue_markMultiples offset limit i hi l h
    · rw [if_neg hg]; exact h

/-- Completeness of the sieve: every composite in the segment ends up
marked `false`, because its least prime factor `p` is reached by the
divisor loop, is never skipped (its own entry is `true` by `PrimesTrue`),
and its marking pass covers the composite. -/
lemma sieveLoop_marks :
    ∀ (fuel : Nat) (l : List Bool) (i offset limit k p : Nat),
      offset + limit ≤ i + fuel → 2 ≤ i → limit ≤ l.length → PrimesTrue offset l →
      k < limit → p.Prime → p ∣ (offset + k) → p * p ≤ offset + k → i ≤ p →
      (sieveLoop fuel l i offset limit).getD k false = false := by
  intro fuel
  induction fuel with
  | zero =>
    intro l i offset limit k p hfuel hi hlen hinv hk hp hdvd hsq hip
    exfalso
    have h1 : p ≤ p * p := Nat.le_mul_of_pos_left p (by omega)
    omega
  | succ fuel ih =>
    intro l i offset limit k p hfuel hi hlen hinv hk hp hdvd hsq hip
    have hg : i * i < offset + limit := by
      have h1 : i * i ≤ p * p := Nat.mul_le_mul hip hip
      omega
    rw [sieveLoop, if_pos hg]
    by_cases hip2 : i = p
    · subst hip2
      have hskip : ¬ (offset ≤ i ∧ l.getD (i - offset) false = false) := by
        rintro ⟨h1, h2⟩
        have h3 : i ≤ i * i := Nat.le_mul_of_pos_left i (by omega)
        have h4 : i - offset < l.length := by omega
        have h5 := hinv (i - offset) h4 (by rw [show offset + (i - offset) = i by omega]; exact hp)
        rw [h5] at h2
        simp at h2
      rw [if_neg hskip]
      apply sieveLoop_false_mono
      rw [getD_markMultiples _ _ _ _ _ _ (by omega)
        (le_trans (Nat.le_mul_of_pos_right limit (by omega)) (Nat.le_add_left _ _))]
      rw [if_pos ((marked_cond offset limit i k (by omega)).mpr ⟨hk, hdvd, hsq⟩)]
    · have hip3 : i + 1 ≤ p := by omega
      by_cases hskip : offset ≤ i ∧ l.getD (i - offset) false = false
      · rw [if_pos hskip]
        exact ih l (i + 1) offset limit k p (by omega) (by omega) hlen hinv hk hp hdvd hsq hip3
      · rw [if_neg hskip]
        refine ih _ (i + 1) offset limit k p (by omega) (by omega) ?_ ?_ hk hp hdvd hsq hip3
        · rw [length_markMultiples]; exact hlen
        · exact primesTrue_markMultiples offset limit i hi l hinv

end SieveTS

namespace SieveTS

/-! ### Correctness of `generatePrimesSieve` -/

lemma length_generatePrimesSieve (offset limit : Nat) :
    (generatePrimesSieve offset limit).length =
      if offset = 0 then max limit 2 else limit := by
  unfold generatePrimesSieve
  rw [length_sieveLoop]
  by_cases h : offset = 0
  · rw [if_pos h, if_pos h, length_jsSetFalse, length_jsSetFalse, List.length_replicate]
    omega
  · rw [if_neg h, if_neg h, List.length_replicate]

lemma init_getD_zero_one (limit k : Nat) (hk : k ≤ 1) :
    (jsSetFalse (jsSetFalse (List.replicate limit true) 1) 0).getD k false = false := by
  rw [getD_jsSetFalse, getD_jsSetFalse]
  interval_cases k <;> simp

lemma primesTrue_init (offset limit : Nat) :
    PrimesTrue offset
      (if offset = 0 then jsSetFalse (jsSetFalse (List.replicate limit true) 1) 0
       else List.replicate limit true) := by
  intro k hk hp
  by_cases h : offset = 0
  · rw [if_pos h] at hk ⊢
    rw [length_jsSetFalse, length_jsSetFalse, List.length_replicate] at hk
    have h2 : 2 ≤ k := by
      have := hp.two_le
      omega
    rw [getD_jsSetFalse, if_neg (by omega), getD_jsSetFalse, if_neg (by omega)]
    have hklim : k < limit := by omega
    simp [List.getD_eq_getElem?_getD, List.getElem?_replicate, hklim]
  · rw [if_neg h] at hk ⊢
    rw [List.length_replicate] at hk
    simp [List.getD_eq_getElem?_getD, List.getElem?_replicate, hk]

/-- Pointwise correctness of the segmented sieve, for every offset except
the anomalous `offset = 1` (whose segment leaves the non-prime 1 marked
`true` because the `offset === 0` special case does not cover it): an
entry reads `true` exactly when it is inside the requested range and the
absolute value `offset + k` is prime. -/
lemma generatePrimesSieve_getD (offset limit : Nat) (hoff : offset ≠ 1) (k : Nat) :
    (generatePrimesSieve offset limit).getD k false = true ↔
      (k < limit ∧ (offset + k).Prime) := by
  have hlen : (generatePrimesSieve offset limit).length =
      if offset = 0 then max limit 2 else limit := length_generatePrimesSieve offset limit
  constructor
  · intro htrue
    have hk : k < limit := by
      by_contra hk
      push_neg at hk
      by_cases hkl : k < (generatePrimesSieve offset limit).length
      · have h0 : offset = 0 := by
          by_contra h0
          rw [if_neg h0] at hlen
          omega
        have hk1 : k ≤ 1 := by
          rw [if_pos h0] at hlen
          omega
        have hinit := init_getD_zero_one limit k hk1
        have : (generatePrimesSieve offset limit).getD k false = false := by
          unfold generatePrimesSieve
          rw [if_pos h0]
          exact sieveLoop_false_mono _ _ _ _ _ _ hinit
        rw [this] at htrue
        simp at htrue
      · push_neg at hkl
        rw [List.getD_eq_getElem?_getD, List.getElem?_eq_none hkl] at htrue
        simp at htrue
    refine ⟨hk, ?_⟩
    by_contra hnp
    rcases Nat.lt_or_ge (offset + k) 2 with h2 | h2
    · have h0 : offset = 0 := by omega
      have hk1 : k ≤ 1 := by omega
      have hinit := init_getD_zero_one limit k hk1
      have : (generatePrimesSieve offset limit).getD k false = false := by
        unfold generatePrimesSieve
        rw [if_pos h0]
        exact sieveLoop_false_mono _ _ _ _ _ _ hinit
      rw [this] at htrue
      simp at htrue
    · have hne1 : offset + k ≠ 1 := by omega
      have hp := Nat.minFac_prime hne1
      have hdvd := Nat.minFac_dvd (offset + k)
      have hsq : (offset + k).minFac * (offset + k).minFac ≤ offset + k := by
        have := Nat.minFac_sq_le_self (show 0 < offset + k by omega) hnp
        rwa [Nat.pow_two] at this
      have hfalse : (generatePrimesSieve offset limit).getD k false = false := by
        unfold generatePrimesSieve
        refine sieveLoop_marks _ _ 2 offset limit k ((offset + k).minFac)
          (by omega) (by omega) ?_ (primesTrue_init offset limit) hk hp hdvd hsq hp.two_le
        by_cases h0 : offset = 0
        · rw [if_pos h0, length_jsSetFalse, length_jsSetFalse, List.length_replicate]
          omega
        · rw [if_neg h0, List.length_replicate]
      rw [hfalse] at htrue
      simp at htrue
  · rintro ⟨hk, hp⟩
    have hfinal : PrimesTrue offset (generatePrimesSieve offset limit) := by
      unfold generatePrimesSieve
      exact primesTrue_sieveLoop _ _ 2 offset limit (by omega) (primesTrue_init offset limit)
    refine hfinal k ?_ hp
    rw [hlen]
    by_cases h0 : offset = 0 <;> simp [h0] <;> omega

end SieveTS

namespace SieveTS

/-! ### Counting `true` entries -/

lemma filter_id_length_eq_countP (l : List Bool) :
    (l.filter id).length = (List.range l.length).countP (fun k => l.getD k false) := by
  induction l with
  | nil => rfl
  | cons b t ih =>
    rw [List.length_cons, List.range_succ_eq_map, List.countP_cons, List.countP_map]
    have hcomp : List.countP ((fun k => (b :: t).getD k false) ∘ Nat.succ) (List.range t.length)
        = List.countP (fun k => t.getD k false) (List.range t.length) :=
      List.countP_congr (fun x _ => by simp [Function.comp])
    rw [hcomp, ← ih]
    cases b <;> simp [List.filter_cons]

lemma count_add_count (P : Nat → Prop) [DecidablePred P] (a b : Nat) :
    Nat.count P (a + b) = Nat.count P a + (List.range b).countP (fun k => decide (P (a + k))) := by
  induction b with
  | zero => simp
  | succ b ih =>
    have h1 : a + (b + 1) = (a + b) + 1 := rfl
    rw [h1, Nat.count_succ, ih, List.range_succ, List.countP_append]
    by_cases hP : P (a + b) <;> simp [hP, List.countP_cons, Nat.add_assoc]

lemma segment_count (offset limit : Nat) (hoff : offset ≠ 1) :
    Nat.count Nat.Prime offset + ((generatePrimesSieve offset limit).filter id).length =
      Nat.count Nat.Prime (offset + limit) := by
  rw [count_add_count Nat.Prime offset limit, filter_id_length_eq_countP]
  congr 1
  have hlim : limit ≤ (generatePrimesSieve offset limit).length := by
    rw [length_generatePrimesSieve]
    by_cases h0 : offset = 0 <;> simp [h0]
  obtain ⟨e, he⟩ : ∃ e, (generatePrimesSieve offset limit).length = limit + e :=
    ⟨(generatePrimesSieve offset limit).length - limit, by omega⟩
  rw [he, List.range_add, List.countP_append]
  have hrest :
      List.countP (fun k => (generatePrimesSieve offset limit).getD k false)
        ((List.range e).map (limit + ·)) = 0 := by
    rw [List.countP_eq_zero]
    intro a ha
    rw [List.mem_map] at ha
    obtain ⟨j, -, hj⟩ := ha
    intro hfalse
    have := (generatePrimesSieve_getD offset limit hoff a).mp (by simpa using hfalse)
    omega
  rw [hrest, Nat.add_zero]
  refine List.countP_congr (fun x hx => ?_)
  rw [List.mem_range] at hx
  constructor
  · intro h
    have := (generatePrimesSieve_getD offset limit hoff x).mp (by simpa using h)
    simpa using this.2
  · intro h
    simpa using (generatePrimesSieve_getD offset limit hoff x).mpr ⟨hx, by simpa using h⟩

lemma take_count (l : List Bool) (i : Nat) (h : i ≤ l.length) :
    ((l.take i).filter id).length = (List.range i).countP (fun k => l.getD k false) := by
  rw [filter_id_length_eq_countP, List.length_take, Nat.min_eq_left h]
  refine List.countP_congr (fun x hx => ?_)
  rw [List.mem_range] at hx
  simp [List.getD_eq_getElem?_getD, List.getElem?_take_of_lt hx]

end SieveTS

namespace SieveTS

/-! ### The segment scanner -/

lemma filter_id_cons_true (rest : List Bool) :
    ((true :: rest).filter id).length = (rest.filter id).length + 1 := by
  simp

lemma filter_id_cons_false (rest : List Bool) :
    ((false :: rest).filter id).length = (rest.filter id).length := by
  simp

lemma findTargetAux_eq_none :
    ∀ (l : List Bool) (t off idx cnt : Nat),
      cnt + (l.filter id).length ≤ t → findTargetAux l t off idx cnt = none := by
  intro l
  induction l with
  | nil => intro t off idx cnt _; rfl
  | cons b rest ih =>
    intro t off idx cnt h
    cases b with
    | false =>
      rw [findTargetAux, if_neg (by simp)]
      exact ih t off (idx + 1) cnt (by rw [filter_id_cons_false] at h; omega)
    | true =>
      rw [filter_id_cons_true] at h
      rw [findTargetAux, if_pos rfl, if_neg (by omega)]
      exact ih t off (idx + 1) (cnt + 1) (by omega)

lemma findTargetAux_eq_some :
    ∀ (l : List Bool) (i t off idx cnt : Nat),
      i < l.length → l.getD i false = true →
      cnt + ((l.take i).filter id).length = t →
      findTargetAux l t off idx cnt = some (idx + i + off) := by
  intro l
  induction l with
  | nil => intro i t off idx cnt h; simp at h
  | cons b rest ih =>
    intro i t off idx cnt hi hget hcnt
    cases i with
    | zero =>
      have hb : b = true := hget
      subst hb
      simp only [List.take_zero, List.filter_nil, List.length_nil, Nat.add_zero] at hcnt
      rw [findTargetAux, if_pos rfl, if_pos hcnt]
      simp
    | succ i =>
      have hget2 : rest.getD i false = true := hget
      have hi2 : i < rest.length := by simpa using hi
      cases b with
      | false =>
        rw [findTargetAux, if_neg (by simp)]
        rw [List.take_succ_cons, filter_id_cons_false] at hcnt
        rw [ih i t off (idx + 1) cnt hi2 hget2 hcnt]
        congr 1
        omega
      | true =>
        rw [List.take_succ_cons, filter_id_cons_true] at hcnt
        rw [findTargetAux, if_pos rfl, if_neg (by omega)]
        rw [ih i t off (idx + 1) (cnt + 1) hi2 hget2 (by omega)]
        congr 1
        omega

lemma exists_nth_true (l : List Bool) :
    ∀ t, t < (l.filter id).length →
      ∃ i, i < l.length ∧ l.getD i false = true ∧ ((l.take i).filter id).length = t := by
  induction l with
  | nil => intro t ht; simp at ht
  | cons b rest ih =>
    intro t ht
    cases b with
    | false =>
      rw [filter_id_cons_false] at ht
      obtain ⟨i, h1, h2, h3⟩ := ih t ht
      refine ⟨i + 1, by simpa using h1, h2, ?_⟩
      rw [List.take_succ_cons, filter_id_cons_false]
      exact h3
    | true =>
      cases t with
      | zero => exact ⟨0, by simp, rfl, by simp⟩
      | succ t =>
        rw [filter_id_cons_true] at ht
        obtain ⟨i, h1, h2, h3⟩ := ih t (by omega)
        refine ⟨i + 1, by simpa using h1, h2, ?_⟩
        rw [List.take_succ_cons, filter_id_cons_true]
        omega

end SieveTS

namespace SieveTS

/-! ### Characterisation of the orchestrator loop -/

/-- Complete characterisation of the segment loop: starting from a state
whose running count is exact, it returns the n-th prime when the bound
contains more than `n` primes and the bound-exceeded error otherwise. -/
lemma findNthPrimeLoop_char :
    ∀ (fuel size n upperLimit primeCount offset : Nat),
      2 ≤ size → upperLimit ≤ offset + fuel →
      (offset < upperLimit → offset ≠ 1) →
      primeCount = Nat.count Nat.Prime offset → primeCount ≤ n →
      findNthPrimeLoop size fuel n upperLimit primeCount offset =
        if n < Nat.count Nat.Prime upperLimit then Except.ok (Nat.nth Nat.Prime n)
        else Except.error SieveError.boundExceeded := by
  intro fuel
  induction fuel with
  | zero =>
    intro size n ul pc off hsize hfuel hoff hpc hle
    have hcnt : Nat.count Nat.Prime ul ≤ n :=
      le_trans (Nat.count_monotone Nat.Prime (show ul ≤ off by omega)) (hpc ▸ hle)
    rw [findNthPrimeLoop, if_neg (by omega)]
  | succ fuel ih =>
    intro size n ul pc off hsize hfuel hoff hpc hle
    rw [findNthPrimeLoop]
    by_cases hlt : off < ul
    · rw [if_pos hlt]
      have hoffne : off ≠ 1 := hoff hlt
      set limit := min (ul - off) size with hlimit
      set seg := generatePrimesSieve off limit with hseg
      have hlim1 : 1 ≤ limit := by omega
      have hcount : Nat.count Nat.Prime off + (seg.filter id).length =
          Nat.count Nat.Prime (off + limit) := segment_count off limit hoffne
      by_cases hfound : n - pc < (seg.filter id).length
      · obtain ⟨i, hil, hit, hic⟩ := exists_nth_true seg (n - pc) hfound
        have hsome : findTargetPrimeInSegment seg (n - pc) off = some (0 + i + off) :=
          findTargetAux_eq_some seg i (n - pc) off 0 0 hil hit (by omega)
        rw [hsome]
        obtain ⟨hilim, hiprime⟩ := (generatePrimesSieve_getD off limit hoffne i).mp hit
        have hbridge : (List.range i).countP (fun k => seg.getD k false) =
            (List.range i).countP (fun k => decide ((off + k).Prime)) := by
          refine List.countP_congr (fun x hx => ?_)
          rw [List.mem_range] at hx
          constructor
          · intro h
            have := (generatePrimesSieve_getD off limit hoffne x).mp (by simpa using h)
            simpa using this.2
          · intro h
            simpa using (generatePrimesSieve_getD off limit hoffne x).mpr
              ⟨by omega, by simpa using h⟩
        have htake : ((seg.take i).filter id).length =
            (List.range i).countP (fun k => seg.getD k false) :=
          take_count seg i (Nat.le_of_lt hil)
        have h1 : Nat.count Nat.Prime (off + i) = n := by
          rw [count_add_count Nat.Prime off i, ← hbridge, ← htake, hic]
          omega
        have hnth : Nat.nth Nat.Prime n = off + i := by
          rw [← h1]
          exact Nat.nth_count hiprime
        have hlt2 : n < Nat.count Nat.Prime ul := by
          have h2 : Nat.count Nat.Prime (off + i + 1) = n + 1 := by
            rw [Nat.count_succ, if_pos hiprime, h1]
          have h3 := Nat.count_monotone Nat.Prime (show off + i + 1 ≤ ul by omega)
          omega
        rw [if_pos hlt2]
        show Except.ok (0 + i + off) = Except.ok (Nat.nth Nat.Prime n)
        rw [hnth]
        congr 1
        omega
      · have hnone : findTargetPrimeInSegment seg (n - pc) off = none :=
          findTargetAux_eq_none seg (n - pc) off 0 0 (by omega)
        rw [hnone]
        show findNthPrimeLoop size fuel n ul (pc + (seg.filter id).length) (off + limit) = _
        refine ih size n ul (pc + (seg.filter id).length) (off + limit) hsize (by omega)
          (by intro h2; omega) (by omega) (by omega)
    · rw [if_neg hlt]
      have hcnt : Nat.count Nat.Prime ul ≤ n :=
        le_trans (Nat.count_monotone Nat.Prime (show ul ≤ off by omega)) (hpc ▸ hle)
      rw [if_neg (by omega)]

/-- The loop never produces the invalid-argument error: both of its error
exits are the bound-exceeded throw. -/
lemma findNthPrimeLoop_ne_invalidArgument :
    ∀ (fuel size n upperLimit primeCount offset : Nat),
      findNthPrimeLoop size fuel n upperLimit primeCount offset ≠
        Except.error SieveError.invalidArgument := by
  intro fuel
  induction fuel with
  | zero =>
    intro size n ul pc off h
    rw [findNthPrimeLoop] at h
    exact SieveError.noConfusion (Except.error.inj h)
  | succ fuel ih =>
    intro size n ul pc off h
    rw [findNthPrimeLoop] at h
    by_cases hlt : off < ul
    · rw [if_pos hlt] at h
      rcases hfind : findTargetPrimeInSegment
          (generatePrimesSieve off (min (ul - off) size)) (n - pc) off with - | r
      · rw [hfind] at h
        exact ih size n ul _ _ h
      · rw [hfind] at h
        exact Except.noConfusion h
    · rw [if_neg hlt] at h
      exact SieveError.noConfusion (Except.error.inj h)

end SieveTS

namespace SieveTS

/-! ### Characterisation of `NthPrime` -/

lemma NthPrimeWith_char (size : Nat) (hsize : 2 ≤ size) (n : Int) (hn : 1 ≤ n) :
    NthPrimeWith size n =
      if n.toNat < Nat.count Nat.Prime (calculateUpperLimit (n.toNat + 1))
      then Except.ok ((Nat.nth Nat.Prime n.toNat : Nat) : Int)
      else Except.error SieveError.boundExceeded := by
  unfold NthPrimeWith findNthPrimeWith
  rw [if_neg (by omega), if_neg (by omega)]
  rw [findNthPrimeLoop_char (calculateUpperLimit (n.toNat + 1) + 1) size n.toNat
    (calculateUpperLimit (n.toNat + 1)) 0 0 hsize (by omega) (by intro h; omega)
    (Nat.count_zero Nat.Prime).symm (Nat.zero_le _)]
  by_cases hc : n.toNat < Nat.count Nat.Prime (calculateUpperLimit (n.toNat + 1))
  · rw [if_pos hc, if_pos hc]; rfl
  · rw [if_neg hc, if_neg hc]; rfl

lemma nth_prime_zero : Nat.nth Nat.Prime 0 = 2 := by
  have h := Nat.nth_count (p := Nat.Prime) (show Nat.Prime 2 by norm_num)
  rwa [show Nat.count Nat.Prime 2 = 0 from by decide] at h

lemma nth_prime_four : Nat.nth Nat.Prime 4 = 11 := by
  have h := Nat.nth_count (p := Nat.Prime) (show Nat.Prime 11 by norm_num)
  rwa [show Nat.count Nat.Prime 11 = 4 from by decide] at h

/-- Every normal return of `NthPrimeWith size` (chunk size at least 2) is
the true n-th prime, zero-indexed. -/
lemma NthPrimeWith_ok (size : Nat) (hsize : 2 ≤ size) (n v : Int)
    (h : NthPrimeWith size n = Except.ok v) :
    0 ≤ n ∧ v = ((Nat.nth Nat.Prime n.toNat : Nat) : Int) := by
  by_cases hneg : n < 0
  · rw [NthPrimeWith, if_pos hneg] at h
    exact Except.noConfusion h
  by_cases h0 : n = 0
  · subst h0
    rw [NthPrimeWith, if_neg (by omega), if_pos rfl] at h
    refine ⟨le_refl 0, ?_⟩
    rw [← Except.ok.inj h, show (0 : Int).toNat = 0 from rfl, nth_prime_zero]
    rfl
  · have hn : 1 ≤ n := by omega
    rw [NthPrimeWith_char size hsize n hn] at h
    by_cases hc : n.toNat < Nat.count Nat.Prime (calculateUpperLimit (n.toNat + 1))
    · rw [if_pos hc] at h
      exact ⟨by omega, (Except.ok.inj h).symm⟩
    · rw [if_neg hc] at h
      exact Except.noConfusion h

lemma two_le_MAX_ARRAY_SIZE : 2 ≤ MAX_ARRAY_SIZE := by norm_num [MAX_ARRAY_SIZE]

/-! ### Concrete runs of the program -/

lemma NthPrime_one : NthPrime 1 = Except.ok 3 := rfl

lemma NthPrime_two : NthPrime 2 = Except.ok 5 := rfl

lemma NthPrime_three : NthPrime 3 = Except.ok 7 := rfl

lemma NthPrime_four : NthPrime 4 = Except.error SieveError.boundExceeded := rfl

end SieveTS

namespace SieveTS

/-! ### The states reached by the segment loop of `findNthPrime` -/

/-- The relation `ReachesState n upperLimit primeCount offset` holds exactly for the
`(primeCount, offset)` pairs observed at the start of some iteration of
the segment loop of `findNthPrime(n, upperLimit)`: the initial state is
`(0, 0)`, and each iteration whose scan comes back empty adds the
segment's count of `true` entries to `primeCount` and advances `offset`
by the segment length. -/
inductive ReachesState (n upperLimit : Nat) : Nat → Nat → Prop where
  | init : ReachesState n upperLimit 0 0
  | step (primeCount offset : Nat) :
      ReachesState n upperLimit primeCount offset →
      offset < upperLimit →
      findTargetPrimeInSegment
        (generatePrimesSieve offset (min (upperLimit - offset) MAX_ARRAY_SIZE))
        (n - primeCount) offset = none →
      ReachesState n upperLimit
        (primeCount + ((generatePrimesSieve offset
            (min (upperLimit - offset) MAX_ARRAY_SIZE)).filter id).length)
        (offset + min (upperLimit - offset) MAX_ARRAY_SIZE)

lemma reachesState_invariant (n upperLimit primeCount offset : Nat)
    (h : ReachesState n upperLimit primeCount offset) :
    primeCount = Nat.count Nat.Prime offset ∧
      (offset = 0 ∨ 2 ≤ offset ∨ upperLimit ≤ offset) := by
  induction h with
  | init => exact ⟨(Nat.count_zero Nat.Prime).symm, Or.inl rfl⟩
  | step pc off hR hlt hnone ih =>
    obtain ⟨hpc, hoff⟩ := ih
    have hM : MAX_ARRAY_SIZE = 1000000 := rfl
    have hoffne : off ≠ 1 := by omega
    constructor
    · rw [hpc]
      exact segment_count off (min (upperLimit - off) MAX_ARRAY_SIZE) hoffne
    · omega

/-! ### The bound estimator -/

lemma calculateUpperLimit_ge (n : Nat) (h : 1 ≤ n) : n ≤ calculateUpperLimit n := by
  unfold calculateUpperLimit
  by_cases h6 : n < 6
  · rw [if_pos h6]; omega
  · rw [if_neg h6]
    push_neg at h6
    have h3 : (6 : ℝ) ≤ (n : ℝ) := by exact_mod_cast h6
    have hn0 : (0 : ℝ) < (n : ℝ) := by linarith
    have h1 : (1 : ℝ) ≤ Real.log n := by
      rw [Real.le_log_iff_exp_le hn0]
      have h2 : Real.exp 1 < 2.7182818286 := Real.exp_one_lt_d9
      linarith
    have h2 : (0 : ℝ) ≤ Real.log (Real.log n) := Real.log_nonneg h1
    have hx : (n : ℝ) ≤ (n : ℝ) * (Real.log n + Real.log (Real.log n)) := by nlinarith
    calc n = ⌈((n : ℕ) : ℝ)⌉₊ := (Nat.ceil_natCast n).symm
      _ ≤ ⌈(n : ℝ) * (Real.log n + Real.log (Real.log n))⌉₊ := Nat.ceil_mono hx

end SieveTS

namespace SieveTS

/-! ### The claims -/

/-- C1: the claim that `NthPrime(n)` equals the n-th prime (0-indexed) for
all `0 ≤ n ≤ 10000`, in particular `NthPrime(4) = 11`, fails at the single
input `n = 4`: `calculateUpperLimit(5) = 11` is used as an exclusive search
bound, so the range `[0, 11)` misses the 4th prime, which is 11 itself, and
the code throws the bound-exceeded error instead of returning 11. -/
theorem claim_C1 :
    NthPrime 4 = Except.error SieveError.boundExceeded ∧ Nat.nth Nat.Prime 4 = 11 :=
  ⟨NthPrime_four, nth_prime_four⟩

/-- C2: the claim that `NthPrime(n)` never raises the bound-exceeded error
for `0 ≤ n ≤ 100000` fails at `n = 4`, which lies in that range: the
estimated upper limit 11 for rank 4 contains only the four primes
2, 3, 5, 7, so the loop exhausts `[0, 11)` and throws. -/
theorem claim_C2 :
    (0 : Int) ≤ 4 ∧ (4 : Int) ≤ 100000 ∧
      NthPrime 4 = Except.error SieveError.boundExceeded :=
  ⟨by norm_num, by norm_num, NthPrime_four⟩

/-- C3 (counterexample): at `offset = 1`, `length = 1` the generated
segment marks index 0 `true` although the absolute value `1 + 0 = 1`
is not prime, refuting the claim for every non-negative offset: the
`offset === 0` special case is the only place that clears the entry
for the non-prime 1, and it does not apply when the segment starts at 1. -/
theorem claim_C3_counterexample :
    (generatePrimesSieve 1 1).getD 0 false = true ∧ ¬ (1 + 0).Prime :=
  ⟨rfl, by norm_num⟩

/-- C3 (amended): for every offset other than 1 and every length, the
segment returned by `generatePrimesSieve` has value `true` at index `i`
exactly when `i` is inside the requested range and `offset + i` is prime
(so in particular every index with `offset + i < 2` is `false`, and the
concrete segments at `(0, 30)` and `(20, 10)` have exactly the true
entries the claim lists). -/
theorem claim_C3 (offset limit k : Nat) (hoff : offset ≠ 1) :
    (generatePrimesSieve offset limit).getD k false = true ↔
      (k < limit ∧ (offset + k).Prime) :=
  generatePrimesSieve_getD offset limit hoff k

theorem claim_C3_witness :
    (0 : Nat) ≠ 1 ∧ (generatePrimesSieve 0 30).getD 29 false = true :=
  ⟨by norm_num, (claim_C3 0 30 29 (by norm_num)).mpr ⟨by norm_num, by norm_num⟩⟩

/-- C4 (counterexample): the observable result of `NthPrime` is not
independent of every choice of the chunking constant: with chunk size 1
the second segment is `[1, 2)`, whose only entry (the non-prime 1) stays
`true`, so the running count is off by one and rank 1 yields 2 instead
of 3. -/
theorem claim_C4_counterexample :
    NthPrimeWith 1 1 = Except.ok 2 ∧ NthPrimeWith 1000000 1 = Except.ok 3 ∧
      (2 : Int) ≠ 3 :=
  ⟨rfl, rfl, by norm_num⟩

/-- C4 (amended): for every two chunking constants that are at least 2,
`NthPrime` computes the same function (value and error outcome alike). -/
theorem claim_C4 (s1 s2 : Nat) (hs1 : 2 ≤ s1) (hs2 : 2 ≤ s2) (n : Int) :
    NthPrimeWith s1 n = NthPrimeWith s2 n := by
  by_cases hneg : n < 0
  · rw [NthPrimeWith, NthPrimeWith, if_pos hneg, if_pos hneg]
  by_cases h0 : n = 0
  · subst h0
    rfl
  · rw [NthPrimeWith_char s1 hs1 n (by omega), NthPrimeWith_char s2 hs2 n (by omega)]

theorem claim_C4_witness :
    2 ≤ 2 ∧ 2 ≤ 3 ∧ NthPrimeWith 2 5 = NthPrimeWith 3 5 :=
  ⟨by norm_num, by norm_num, claim_C4 2 3 (by norm_num) (by norm_num) 5⟩

/-- C5 (counterexample): strict monotonicity as stated fails because
`NthPrime(4)` does not return a value at all: `NthPrime(3) = 7` but
`NthPrime(4)` throws the bound-exceeded error, so the pair
`(n1, n2) = (3, 4)` has no values to compare. -/
theorem claim_C5_counterexample :
    (0 : Int) ≤ 3 ∧ (3 : Int) < 4 ∧ NthPrime 3 = Except.ok 7 ∧
      NthPrime 4 = Except.error SieveError.boundExceeded :=
  ⟨by norm_num, by norm_num, NthPrime_three, NthPrime_four⟩

/-- C5 (amended): whenever `NthPrime` returns values at two ranks
`n1 < n2`, the values are strictly increasing. -/
theorem claim_C5 (n1 n2 v1 v2 : Int) (hlt : n1 < n2)
    (h1 : NthPrime n1 = Except.ok v1) (h2 : NthPrime n2 = Except.ok v2) :
    v1 < v2 := by
  obtain ⟨hn1, hv1⟩ := NthPrimeWith_ok MAX_ARRAY_SIZE two_le_MAX_ARRAY_SIZE n1 v1 h1
  obtain ⟨hn2, hv2⟩ := NthPrimeWith_ok MAX_ARRAY_SIZE two_le_MAX_ARRAY_SIZE n2 v2 h2
  rw [hv1, hv2]
  have hlt2 : n1.toNat < n2.toNat := by omega
  exact_mod_cast (Nat.nth_lt_nth Nat.infinite_setOf_prime).mpr hlt2

theorem claim_C5_witness :
    (1 : Int) < 2 ∧ NthPrime 1 = Except.ok 3 ∧ NthPrime 2 = Except.ok 5 ∧
      (3 : Int) < 5 :=
  ⟨by norm_num, NthPrime_one, NthPrime_two,
    claim_C5 1 2 3 5 (by norm_num) NthPrime_one NthPrime_two⟩

/-- C6: `NthPrime(n)` raises the invalid-argument error exactly when
`n < 0`; for non-negative `n` that error is never produced (the check is
the first statement of the function, before any computation). -/
theorem claim_C6 (n : Int) :
    NthPrime n = Except.error SieveError.invalidArgument ↔ n < 0 := by
  constructor
  · intro h
    by_contra hge
    push_neg at hge
    rw [NthPrime, NthPrimeWith, if_neg (by omega)] at h
    by_cases h0 : n = 0
    · rw [if_pos h0] at h
      exact Except.noConfusion h
    · rw [if_neg h0] at h
      unfold findNthPrimeWith at h
      cases hl : findNthPrimeLoop MAX_ARRAY_SIZE (calculateUpperLimit (n.toNat + 1) + 1)
          n.toNat (calculateUpperLimit (n.toNat + 1)) 0 0 with
      | error e =>
        rw [hl] at h
        simp only [Except.map, Except.error.injEq] at h
        exact findNthPrimeLoop_ne_invalidArgument _ _ _ _ _ _ (by rw [hl, h])
      | ok r =>
        rw [hl] at h
        simp [Except.map] at h
  · intro h
    rw [NthPrime, NthPrimeWith, if_pos h]

/-- C7: the segment scanner returns `offset + i` for the `(t+1)`-th `true`
entry (the entry `i` that is `true` and has exactly `t` `true` entries
before it) whenever the segment has more than `t` `true` entries, and
`none` otherwise. -/
theorem claim_C7 (primes : List Bool) (t off : Nat) :
    ((primes.filter id).length ≤ t → findTargetPrimeInSegment primes t off = none) ∧
    (t < (primes.filter id).length →
      ∃ i, i < primes.length ∧ primes.getD i false = true ∧
        ((primes.take i).filter id).length = t ∧
        findTargetPrimeInSegment primes t off = some (off + i)) := by
  constructor
  · intro h
    exact findTargetAux_eq_none primes t off 0 0 (by omega)
  · intro h
    obtain ⟨i, h1, h2, h3⟩ := exists_nth_true primes t h
    refine ⟨i, h1, h2, h3, ?_⟩
    rw [findTargetPrimeInSegment, findTargetAux_eq_some primes i t off 0 0 h1 h2 (by omega)]
    congr 1
    omega

theorem claim_C7_witness :
    (([true, false, true, true] : List Bool).filter id).length ≤ 3 ∧
      findTargetPrimeInSegment [true, false, true, true] 3 10 = none :=
  ⟨by decide, (claim_C7 [true, false, true, true] 3 10).1 (by decide)⟩

/-- C8: the bound estimator never returns a value below its argument: for
`1 ≤ n < 6` it returns the constant 11 ≥ n, and for `n ≥ 6` it returns
`ceil(n * (ln n + ln ln n)) ≥ ceil(n) = n` since `ln n ≥ 1` and
`ln (ln n) ≥ 0` there. -/
theorem claim_C8 (n : Nat) (h : 1 ≤ n) : n ≤ calculateUpperLimit n :=
  calculateUpperLimit_ge n h

theorem claim_C8_witness : 1 ≤ 1 ∧ 1 ≤ calculateUpperLimit 1 :=
  ⟨le_refl 1, claim_C8 1 (le_refl 1)⟩

/-- C9: every value `NthPrime` returns normally is prime (it is the true
n-th prime), hence at least 2. -/
theorem claim_C9 (n v : Int) (_hn : 0 ≤ n) (h : NthPrime n = Except.ok v) :
    2 ≤ v ∧ Nat.Prime v.toNat := by
  obtain ⟨-, hv⟩ := NthPrimeWith_ok MAX_ARRAY_SIZE two_le_MAX_ARRAY_SIZE n v h
  have hp : Nat.Prime (Nat.nth Nat.Prime n.toNat) :=
    Nat.nth_mem_of_infinite Nat.infinite_setOf_prime n.toNat
  constructor
  · rw [hv]
    exact_mod_cast hp.two_le
  · rw [hv, Int.toNat_natCast]
    exact hp

theorem claim_C9_witness :
    (0 : Int) ≤ 1 ∧ (2 ≤ (3 : Int) ∧ Nat.Prime ((3 : Int)).toNat) :=
  ⟨by norm_num, claim_C9 1 3 (by norm_num) NthPrime_one⟩

/-- C10: at the start of every iteration of the segment loop of
`findNthPrime` (every state in `ReachesState`), the running `primeCount`
equals the exact number of primes below the current `offset`; the
preservation step is the `step` constructor of `ReachesState`, which
performs precisely the source's end-of-iteration update. -/
theorem claim_C10 (n upperLimit primeCount offset : Nat)
    (h : ReachesState n upperLimit primeCount offset) :
    primeCount = Nat.count Nat.Prime offset :=
  (reachesState_invariant n upperLimit primeCount offset h).1

theorem claim_C10_witness : (4 : Nat) = Nat.count Nat.Prime 11 :=
  claim_C10 4 11 _ _
    (ReachesState.step 0 0 ReachesState.init (by norm_num) rfl)

end SieveTS
